import Mathlib

/-!
Verification development for the boundary-capture and coverage-tracking
engine of the PloughingApp sources (`BoundaryCaptureScreen.js` and the two
`PloughingScreen` variants).  Coordinates, areas and accuracies are modelled
as rationals; the geometric primitives the source takes from the turf
library are modelled from the specification's GeoMath section.
-/

namespace PloughingApp

/-- A geographic point in degrees (the data model's `GeoPoint`). -/
structure GeoPoint where
  latitude : ℚ
  longitude : ℚ
deriving DecidableEq, Repr, Inhabited

/-- A ring: ordered list of points, stored open (the data model's `Ring`);
all edge computations treat it as closed. -/
abbrev Ring := List GeoPoint

/-- Edges of a ring treated as closed: consecutive pairs plus the wrap-around
edge from the last point back to the first. -/
def edges (r : Ring) : List (GeoPoint × GeoPoint) :=
  match r with
  | [] => []
  | p :: _ => r.zip (r.drop 1 ++ [p])

/-- Modelled from the spec: the cross-product orientation of the triple
(p, q, r), the primitive of GeoMath's "standard orientation-based test". -/
def orient (p q r : GeoPoint) : ℚ :=
  (q.longitude - p.longitude) * (r.latitude - p.latitude) -
    (q.latitude - p.latitude) * (r.longitude - p.longitude)

/-- Modelled from the spec: whether r, known collinear with segment pq, lies
within pq's bounding box (the collinear case of the segment test). -/
def onSegment (p q r : GeoPoint) : Bool :=
  decide (min p.longitude q.longitude ≤ r.longitude) &&
  decide (r.longitude ≤ max p.longitude q.longitude) &&
  decide (min p.latitude q.latitude ≤ r.latitude) &&
  decide (r.latitude ≤ max p.latitude q.latitude)

/-- Modelled from the spec: GeoMath's `segmentsIntersect(a1,a2,b1,b2)`, the
standard orientation-based segment intersection test with collinear
boundary cases. -/
def segmentsIntersect (a1 a2 b1 b2 : GeoPoint) : Bool :=
  let d1 := orient b1 b2 a1
  let d2 := orient b1 b2 a2
  let d3 := orient a1 a2 b1
  let d4 := orient a1 a2 b2
  (((decide (0 < d1) && decide (d2 < 0)) || (decide (d1 < 0) && decide (0 < d2))) &&
   ((decide (0 < d3) && decide (d4 < 0)) || (decide (d3 < 0) && decide (0 < d4)))) ||
  (decide (d1 = 0) && onSegment b1 b2 a1) ||
  (decide (d2 = 0) && onSegment b1 b2 a2) ||
  (decide (d3 = 0) && onSegment a1 a2 b1) ||
  (decide (d4 = 0) && onSegment a1 a2 b2)

/-- Modelled from the spec: the self-intersection ("kinks") test the source
obtains from `turf.kinks`: `segmentsIntersect` over all non-adjacent edge
pairs of the closed ring; an edge pair sharing a ring vertex (adjacent
edges, including the last/first pair) is not a self-intersection. -/
def selfIntersecting (r : Ring) : Bool :=
  let es := edges r
  let n := es.length
  (List.range n).any fun i =>
    (List.range n).any fun j =>
      decide (i + 2 ≤ j) && !(decide (i = 0) && decide (j = n - 1)) &&
        (let e := es.getD i (⟨0, 0⟩, ⟨0, 0⟩)
         let f := es.getD j (⟨0, 0⟩, ⟨0, 0⟩)
         segmentsIntersect e.1 e.2 f.1 f.2)

/-- Modelled from the spec: GeoMath's `pointInPolygon`, the standard
crossing-number (ray casting) test against the closed ring, as the source
obtains from `turf.booleanPointInPolygon`. -/
def pointInPolygon (p : GeoPoint) (r : Ring) : Bool :=
  (edges r).foldl
    (fun inside e =>
      let a := e.1
      let b := e.2
      if (decide (p.latitude < a.latitude) != decide (p.latitude < b.latitude)) &&
         decide (p.longitude <
           (b.longitude - a.longitude) * (p.latitude - a.latitude) /
             (b.latitude - a.latitude) + a.longitude)
      then !inside else inside)
    false

/-- A bounding box (minLon, minLat, maxLon, maxLat), as `turf.bbox` orders
its components. -/
structure BBox where
  minLon : ℚ
  minLat : ℚ
  maxLon : ℚ
  maxLat : ℚ
deriving DecidableEq, Repr

/-- Modelled from the spec: GeoMath's `boundingBox(ring)` (`turf.bbox` in the
source).  The duplicated closing point of a closed ring does not change the
extrema, so the open ring is used. -/
def boundingBox (r : Ring) : BBox :=
  match r with
  | [] => ⟨0, 0, 0, 0⟩
  | p :: ps =>
    { minLon := ps.foldl (fun m q => min m q.longitude) p.longitude
      minLat := ps.foldl (fun m q => min m q.latitude) p.latitude
      maxLon := ps.foldl (fun m q => max m q.longitude) p.longitude
      maxLat := ps.foldl (fun m q => max m q.latitude) p.latitude }

/-- The axis-aligned square cell with minimum corner at longitude x,
latitude y, and side s, as an open ring. -/
def cellRing (x y s : ℚ) : Ring :=
  [⟨y, x⟩, ⟨y, x + s⟩, ⟨y + s, x + s⟩, ⟨y + s, x⟩]

/-- Modelled from the spec: GeoMath's `squareGrid(bbox, cellSide)`
(`turf.squareGrid` in the source): tessellates the bounding box into
axis-aligned squares of the given side, starting at the box's minimum
corner; partial edge cells may extend past the box's maximum edge.  The
meters-to-degrees conversion internal to turf is not modelled: the side is
taken in coordinate units. -/
def squareGrid (b : BBox) (s : ℚ) : List Ring :=
  let nx := (⌈(b.maxLon - b.minLon) / s⌉).toNat
  let ny := (⌈(b.maxLat - b.minLat) / s⌉).toNat
  (List.range nx).flatMap fun i : ℕ =>
    (List.range ny).map fun j : ℕ =>
      cellRing (b.minLon + (i : ℚ) * s) (b.minLat + (j : ℚ) * s) s

/-- Modelled from the spec: GeoMath's `intersects(ringA, ringB)`
(`turf.booleanIntersects` in the source): true if any vertex of either ring
lies inside the other, or any edge pair of the two closed rings intersects
(the vertex tests also cover full containment of one ring in the other). -/
def ringsIntersect (a b : Ring) : Bool :=
  a.any (fun p => pointInPolygon p b) ||
  b.any (fun p => pointInPolygon p a) ||
  (edges a).any (fun e => (edges b).any (fun f => segmentsIntersect e.1 e.2 f.1 f.2))

/-- The acre constant of the boundary-area recompute
(`sqm / 4046.8564224`, BoundaryCaptureScreen.js line 100). -/
def boundaryAcreConstant : ℚ := 4046.8564224

/-- The acre constant of the square-meter display value
(`area * 4046.86`, BoundaryCaptureScreen.js line 287). -/
def displayAcreConstant : ℚ := 4046.86

/-- The acre constant of the tracker's per-cell area
(`Math.pow(ploughWidth/2,2) / 4046.86`, both PloughingScreen variants). -/
def cellAcreConstant : ℚ := 4046.86

/-- The square-meter display value derived from the acre area
(BoundaryCaptureScreen.js line 287). -/
def displaySquareMeters (areaAcres : ℚ) : ℚ := areaAcres * 4046.86

/-- `const ploughWidth = 2` meters (both PloughingScreen variants). -/
def ploughWidth : ℚ := 2

/-- Per-cell area in acres as the fix handlers compute it:
`Math.pow(ploughWidth/2,2) / 4046.86`. -/
def cellAreaAcres : ℚ := (ploughWidth / 2) ^ 2 / 4046.86

/-- The draft boundary state of BoundaryCaptureScreen: the `coords` ring, the
displayed `area` (acres), whether the invalid-shape alert fired in the last
recompute, whether the last recompute wrote the draft snapshot, and the
content of the `lastBoundary` storage key. -/
structure Draft where
  coords : Ring
  area : ℚ
  alerted : Bool
  wrote : Bool
  stored : Option (Ring × ℚ)
deriving DecidableEq, Repr

/-- The area/validity recompute effect (BoundaryCaptureScreen.js lines
88–105), run after every change of `coords`: with at least 3 points, a
kinked ring alerts and forces area to 0 (no snapshot write); a valid ring
gets `area = turf.area / 4046.8564224` and a draft snapshot write; with
fewer than 3 points the area is 0.  `sqmOf` stands for `turf.area` on the
closed ring (geodesic area in square meters, external to the repository). -/
def recompute (sqmOf : Ring → ℚ) (st : Draft) : Draft :=
  if 3 ≤ st.coords.length then
    if selfIntersecting st.coords then
      { st with area := 0, alerted := true, wrote := false }
    else
      let acres := sqmOf st.coords / 4046.8564224
      { st with area := acres, alerted := false, wrote := true,
                stored := some (st.coords, acres) }
  else
    { st with area := 0, alerted := false, wrote := false }

/-- `addPoint` (BoundaryCaptureScreen.js lines 107–109): unconditional append
of the point, followed by the recompute effect on the new `coords`. -/
def addPoint (sqmOf : Ring → ℚ) (st : Draft) (p : GeoPoint) : Draft :=
  recompute sqmOf { st with coords := st.coords ++ [p] }

/-- `undo` (line 143): drop the last point (`slice(0,-1)`), followed by the
recompute effect on the new `coords`. -/
def undo (sqmOf : Ring → ℚ) (st : Draft) : Draft :=
  recompute sqmOf { st with coords := st.coords.dropLast }

/-- `reset` (lines 144–148): clears `coords` and `area` and removes the
stored draft; the subsequent recompute (length < 3 branch) keeps area 0. -/
def reset (sqmOf : Ring → ℚ) (st : Draft) : Draft :=
  recompute sqmOf { st with coords := [], area := 0, stored := none }

/-- The spec's boundary-builder states. -/
inductive BuilderState
  | Empty | Capturing | Invalid | Complete
deriving DecidableEq, Repr

/-- The builder state as observable from the code: empty ring, fewer than 3
points, kinked ring (the `onFinish` guard rejects it), or complete. -/
def draftState (st : Draft) : BuilderState :=
  if st.coords.length = 0 then .Empty
  else if st.coords.length < 3 then .Capturing
  else if selfIntersecting st.coords then .Invalid
  else .Complete

/-- One GPS sample (the data model's `GpsFix`). -/
structure GpsFix where
  latitude : ℚ
  longitude : ℚ
  accuracy : ℚ
  heading : ℚ
  timestamp : ℚ
deriving DecidableEq, Repr

/-- Auto-capture state: the captured ring and `prevHeadingRef`. -/
structure AutoCapture where
  coords : Ring
  prevHeading : Option ℚ
deriving DecidableEq, Repr

/-- One step of the auto-capture `watchPositionAsync` callback
(BoundaryCaptureScreen.js lines 122–134): accuracy gate at 12 m, then the
heading gate `prevHeading === null || Math.abs(heading - prevHeading) > 30`
— plain subtraction; on acceptance the point is appended and `prevHeading`
updates to the fix's heading. -/
def autoStep (st : AutoCapture) (fix : GpsFix) : AutoCapture :=
  if 12 < fix.accuracy then st
  else
    match st.prevHeading with
    | none =>
        { coords := st.coords ++ [⟨fix.latitude, fix.longitude⟩],
          prevHeading := some fix.heading }
    | some prev =>
        if 30 < |fix.heading - prev| then
          { coords := st.coords ++ [⟨fix.latitude, fix.longitude⟩],
            prevHeading := some fix.heading }
        else st

/-- The spec's shorter-arc circular heading difference on the 0–360 circle:
the reference semantics the heading gate is claimed to use, for comparison
with the code's plain subtraction. -/
def circularHeadingDiff (a b : ℚ) : ℚ :=
  let d := |a - b|
  min d (360 - d)

/-- A grid cell: stable id plus its square ring (`{ id:i, feature:f }` in
both PloughingScreen variants). -/
structure GridCell where
  id : ℕ
  feature : Ring
deriving DecidableEq, Repr

/-- Grid construction of the enhanced PloughingScreen variant (part_001
lines 89–97): bounding box of the boundary, `squareGrid` with cell side
`ploughWidth/2` (the source passes `ploughWidth/1000/2` kilometers), keep
the cells intersecting the boundary, and number the survivors 0-based in
filter order. -/
def buildGrid (boundary : Ring) : List GridCell :=
  let bb := boundingBox boundary
  let cellSize := ploughWidth / 2
  let grid := squareGrid bb cellSize
  let inside := grid.filter (fun f => ringsIntersect f boundary)
  inside.enum.map fun pair => { id := pair.1, feature := pair.2 }

/-- Grid construction of the plain PloughingScreen variant (same code,
second half of part_001). -/
def buildGridPlain (boundary : Ring) : List GridCell :=
  let bb := boundingBox boundary
  let cellSize := ploughWidth / 2
  let grid := squareGrid bb cellSize
  let inside := grid.filter (fun f => ringsIntersect f boundary)
  inside.enum.map fun pair => { id := pair.1, feature := pair.2 }

/-- JS `Map.get` on the insertion-ordered entry list: value of the entry
with the key, if any. -/
def mapGet (m : List (ℕ × ℕ)) (k : ℕ) : Option ℕ :=
  (m.find? (fun e => e.1 == k)).map Prod.snd

/-- JS `Map.has`. -/
def mapHas (m : List (ℕ × ℕ)) (k : ℕ) : Bool :=
  (m.find? (fun e => e.1 == k)).isSome

/-- JS `Map.set`: update the entry with the key in place when present
(keeping insertion order; a JS Map never holds two entries with one key),
append otherwise. -/
def mapSet : List (ℕ × ℕ) → ℕ → ℕ → List (ℕ × ℕ)
  | [], k, v => [(k, v)]
  | e :: t, k, v => if e.1 = k then (k, v) :: t else e :: mapSet t k v

/-- The `turf.point([longitude, latitude])` a fix handler builds from an
accepted fix. -/
def fixPoint (f : GpsFix) : GeoPoint := ⟨f.latitude, f.longitude⟩

/-- The `lastPloughSession` snapshot of the plain PloughingScreen variant:
covered area, progress and the `cellCounts` entries. -/
structure PloughSnapshot where
  ploughedArea : ℚ
  progress : ℚ
  cells : List (ℕ × ℕ)
deriving DecidableEq, Repr

/-- The `lastPloughSession` snapshot of the enhanced variant: additionally
the elapsed session time in seconds. -/
structure EnhSnapshot where
  ploughedArea : ℚ
  progress : ℚ
  sessionTime : ℤ
  cells : List (ℕ × ℕ)
deriving DecidableEq, Repr

/-- Tracking-session state of the plain PloughingScreen variant: the
`cellCounts` map, `ploughedArea` and `progress`, and the content of the
`lastPloughSession` storage key. -/
structure PlainTrack where
  cellCounts : List (ℕ × ℕ)
  ploughedArea : ℚ
  progress : ℚ
  stored : Option PloughSnapshot
deriving DecidableEq, Repr

/-- State at `togglePlough` start (plain variant): counts cleared, area and
progress zero; the storage key keeps whatever it held. -/
def startPlain (stored : Option PloughSnapshot) : PlainTrack :=
  { cellCounts := [], ploughedArea := 0, progress := 0, stored := stored }

/-- The `watchPositionAsync` callback of the plain PloughingScreen variant:
accuracy gate at 12 m; walk `gridCells` in list order and bump the first
cell containing the fix (break on first match); on a cell's first visit
recompute `covered = size * cellArea` and `progress = min(covered /
fieldArea, 1)` and write the session snapshot; on a revisit or a miss the
derived values and the snapshot are untouched. -/
def plainOnFix (fieldArea : ℚ) (cells : List GridCell) (s : PlainTrack)
    (fix : GpsFix) : PlainTrack :=
  if 12 < fix.accuracy then s
  else
    match cells.find? (fun c => pointInPolygon (fixPoint fix) c.feature) with
    | none => s
    | some c =>
        let updated := !mapHas s.cellCounts c.id
        let counts := mapSet s.cellCounts c.id ((mapGet s.cellCounts c.id).getD 0 + 1)
        if updated then
          let visited : ℕ := counts.length
          let covered := (visited : ℚ) * cellAreaAcres
          let newProgress := min (covered / fieldArea) 1
          { cellCounts := counts, ploughedArea := covered,
            progress := newProgress,
            stored := some ⟨covered, newProgress, counts⟩ }
        else { s with cellCounts := counts }

/-- Folding the plain fix handler over a fix sequence. -/
def runPlain (fieldArea : ℚ) (cells : List GridCell) (s : PlainTrack)
    (fs : List GpsFix) : PlainTrack :=
  fs.foldl (plainOnFix fieldArea cells) s

/-- Session restore of the plain variant ("Restore plough session if
interrupted"): adopts the snapshot's area and progress verbatim and plays
the stored cell entries into the counts map with `Map.set`. -/
def restoreSession (snap : PloughSnapshot) (s : PlainTrack) : PlainTrack :=
  { s with ploughedArea := snap.ploughedArea, progress := snap.progress,
           cellCounts := snap.cells.foldl (fun m e => mapSet m e.1 e.2) s.cellCounts }

/-- `loc.coords` as the enhanced variant's `lastLocation` ref stores it:
position only (the expo location object carries `timestamp` outside
`coords`). -/
structure Coords where
  latitude : ℚ
  longitude : ℚ
deriving DecidableEq, Repr

/-- Tracking-session state of the enhanced PloughingScreen variant:
additionally the displayed speed, the `lastLocation` ref and the session
start time.  `speed = none` models the NaN the source computes (see
`enhOnFix`). -/
structure EnhTrack where
  cellCounts : List (ℕ × ℕ)
  ploughedArea : ℚ
  progress : ℚ
  speed : Option ℚ
  lastLocation : Option Coords
  sessionStart : ℚ
  stored : Option EnhSnapshot
deriving DecidableEq, Repr

/-- State at `togglePlough` start (enhanced variant): counts cleared, area,
progress and session time zero, session start recorded; the `lastLocation`
and speed refs are not reset by the source, so they are parameters. -/
def startEnh (sessionStart : ℚ) (speed : Option ℚ) (lastLoc : Option Coords)
    (stored : Option EnhSnapshot) : EnhTrack :=
  { cellCounts := [], ploughedArea := 0, progress := 0, speed := speed,
    lastLocation := lastLoc, sessionStart := sessionStart, stored := stored }

/-- The `watchPositionAsync` callback of the enhanced variant (part_001
lines 166–206): same gate and cell accounting as the plain variant, plus
the speed update and `lastLocation` bookkeeping, and a snapshot that also
records the elapsed seconds at time `now` (`Date.now()`).  The source
computes `timeDiff` from `lastLocation.current.timestamp`, but
`lastLocation` holds `loc.coords`, which has no timestamp field, so the
computed speed is NaN whenever a previous location exists; `none` models
that NaN. -/
def enhOnFix (fieldArea : ℚ) (cells : List GridCell) (now : ℚ)
    (s : EnhTrack) (fix : GpsFix) : EnhTrack :=
  if 12 < fix.accuracy then s
  else
    let s1 := match s.lastLocation with
      | some _ => { s with speed := none }
      | none => s
    let s2 := { s1 with lastLocation := some ⟨fix.latitude, fix.longitude⟩ }
    match cells.find? (fun c => pointInPolygon (fixPoint fix) c.feature) with
    | none => s2
    | some c =>
        let updated := !mapHas s2.cellCounts c.id
        let counts := mapSet s2.cellCounts c.id ((mapGet s2.cellCounts c.id).getD 0 + 1)
        if updated then
          let visited : ℕ := counts.length
          let covered := (visited : ℚ) * cellAreaAcres
          let newProgress := min (covered / fieldArea) 1
          { s2 with cellCounts := counts, ploughedArea := covered,
                    progress := newProgress,
                    stored := some ⟨covered, newProgress,
                      ⌊(now - s.sessionStart) / 1000⌋, counts⟩ }
        else { s2 with cellCounts := counts }

/-- Folding the enhanced fix handler over a sequence of (now, fix) events. -/
def runEnh (fieldArea : ℚ) (cells : List GridCell) (s : EnhTrack)
    (evs : List (ℚ × GpsFix)) : EnhTrack :=
  evs.foldl (fun t e => enhOnFix fieldArea cells e.1 t e.2) s

/-- Coverage view of the enhanced state: counts, covered area, progress. -/
def enhView (s : EnhTrack) : List (ℕ × ℕ) × ℚ × ℚ :=
  (s.cellCounts, s.ploughedArea, s.progress)

/-- Coverage view of the plain state: counts, covered area, progress. -/
def plainView (s : PlainTrack) : List (ℕ × ℕ) × ℚ × ℚ :=
  (s.cellCounts, s.ploughedArea, s.progress)

/-- Well-formedness of a written session snapshot: its derived values agree
with its cell entries, whose keys are distinct. -/
def SnapWF (fieldArea : ℚ) (snap : PloughSnapshot) : Prop :=
  snap.ploughedArea = (snap.cells.length : ℚ) * cellAreaAcres ∧
  snap.progress = min (snap.ploughedArea / fieldArea) 1 ∧
  (snap.cells.map Prod.fst).Nodup

/-- The coverage invariant: covered area is the visited-cell count times the
cell area, progress is `min(covered / fieldArea, 1)`, the counts map has
distinct keys, and any stored snapshot is well-formed. -/
def TrackInv (fieldArea : ℚ) (s : PlainTrack) : Prop :=
  s.ploughedArea = (s.cellCounts.length : ℚ) * cellAreaAcres ∧
  s.progress = min (s.ploughedArea / fieldArea) 1 ∧
  (s.cellCounts.map Prod.fst).Nodup ∧
  (∀ snap, s.stored = some snap → SnapWF fieldArea snap)

theorem mapGet_nil (k : ℕ) : mapGet [] k = none := rfl

theorem mapGet_cons (e : ℕ × ℕ) (t : List (ℕ × ℕ)) (k : ℕ) :
    mapGet (e :: t) k = if e.1 = k then some e.2 else mapGet t k := by
  by_cases h : e.1 = k <;> simp [mapGet, List.find?_cons, h]

theorem mapHas_eq_isSome (m : List (ℕ × ℕ)) (k : ℕ) :
    mapHas m k = (mapGet m k).isSome := by
  simp [mapHas, mapGet]

theorem findKey_cons (e : ℕ × ℕ) (t : List (ℕ × ℕ)) (k : ℕ) :
    List.find? (fun x => x.1 == k) (e :: t)
      = if e.1 = k then some e else List.find? (fun x => x.1 == k) t := by
  by_cases h : e.1 = k
  · rw [List.find?_cons_of_pos _ (by simpa using h), if_pos h]
  · rw [List.find?_cons_of_neg _ (by simpa using h), if_neg h]

theorem mapHas_false_iff (m : List (ℕ × ℕ)) (k : ℕ) :
    mapHas m k = false ↔ k ∉ m.map Prod.fst := by
  induction m with
  | nil => simp [mapHas]
  | cons e t ih =>
    by_cases h : e.1 = k
    · simp [mapHas, findKey_cons, h]
    · simp only [mapHas, findKey_cons, if_neg h] at ih ⊢
      simp only [List.map_cons, List.mem_cons]
      constructor
      · intro hf hc
        rcases hc with hc | hc
        · exact h hc.symm
        · exact (ih.mp hf) hc
      · intro hn
        exact ih.mpr (fun hc => hn (Or.inr hc))

theorem mapGet_mapSet_self (m : List (ℕ × ℕ)) (k v : ℕ) :
    mapGet (mapSet m k v) k = some v := by
  induction m with
  | nil => simp [mapSet, mapGet_cons]
  | cons e t ih =>
    by_cases h : e.1 = k
    · simp [mapSet, h, mapGet_cons]
    · simp [mapSet, h, mapGet_cons, ih]

theorem mapGet_mapSet_ne (m : List (ℕ × ℕ)) (k v k' : ℕ) (h : k' ≠ k) :
    mapGet (mapSet m k v) k' = mapGet m k' := by
  induction m with
  | nil => simp [mapSet, mapGet_cons, mapGet_nil, Ne.symm h]
  | cons e t ih =>
    by_cases he : e.1 = k
    · simp [mapSet, he, mapGet_cons, Ne.symm h, he ▸ Ne.symm h]
    · simp [mapSet, he, mapGet_cons, ih]

theorem mapSet_get_self (m : List (ℕ × ℕ)) (k v : ℕ)
    (h : mapGet m k = some v) : mapSet m k v = m := by
  induction m with
  | nil => simp [mapGet_nil] at h
  | cons e t ih =>
    rw [mapGet_cons] at h
    by_cases he : e.1 = k
    · rw [if_pos he] at h
      obtain ⟨h1, h2⟩ := Prod.mk.injEq .. ▸ congrArg id (rfl : e = e)
      simp only [mapSet, if_pos he]
      cases e
      simp_all
    · rw [if_neg he] at h
      simp [mapSet, he, ih h]

theorem mapSet_mapSet (m : List (ℕ × ℕ)) (k v w : ℕ) :
    mapSet (mapSet m k v) k w = mapSet m k w := by
  induction m with
  | nil => simp [mapSet]
  | cons e t ih =>
    by_cases he : e.1 = k
    · simp [mapSet, he]
    · simp [mapSet, he, ih]

theorem mapSet_append_of_not_has (m : List (ℕ × ℕ)) (k v : ℕ)
    (h : mapHas m k = false) : mapSet m k v = m ++ [(k, v)] := by
  induction m with
  | nil => simp [mapSet]
  | cons e t ih =>
    rw [mapHas_false_iff] at h
    simp only [List.map_cons, List.mem_cons] at h
    push_neg at h
    have he : e.1 ≠ k := fun hk => h.1 hk.symm
    have ht : mapHas t k = false := (mapHas_false_iff t k).mpr h.2
    simp [mapSet, he, ih ht]

theorem length_mapSet_of_has (m : List (ℕ × ℕ)) (k v : ℕ)
    (h : mapHas m k = true) : (mapSet m k v).length = m.length := by
  induction m with
  | nil => simp [mapHas] at h
  | cons e t ih =>
    by_cases he : e.1 = k
    · simp [mapSet, he]
    · have ht : mapHas t k = true := by
        simp only [mapHas, findKey_cons, if_neg he] at h
        simpa [mapHas] using h
      simp [mapSet, he, ih ht]

theorem length_mapSet_of_not_has (m : List (ℕ × ℕ)) (k v : ℕ)
    (h : mapHas m k = false) : (mapSet m k v).length = m.length + 1 := by
  rw [mapSet_append_of_not_has m k v h]
  simp

theorem keys_mapSet_of_has (m : List (ℕ × ℕ)) (k v : ℕ)
    (h : mapHas m k = true) :
    (mapSet m k v).map Prod.fst = m.map Prod.fst := by
  induction m with
  | nil => simp [mapHas] at h
  | cons e t ih =>
    by_cases he : e.1 = k
    · simp [mapSet, he]
    · have ht : mapHas t k = true := by
        simp only [mapHas, findKey_cons, if_neg he] at h
        simpa [mapHas] using h
      simp [mapSet, he, ih ht]

theorem nodup_keys_mapSet (m : List (ℕ × ℕ)) (k v : ℕ)
    (h : (m.map Prod.fst).Nodup) :
    ((mapSet m k v).map Prod.fst).Nodup := by
  by_cases hh : mapHas m k
  · rw [keys_mapSet_of_has m k v hh]
    exact h
  · rw [mapSet_append_of_not_has m k v (by simpa using hh)]
    have hk : k ∉ m.map Prod.fst := (mapHas_false_iff m k).mp (by simpa using hh)
    simp only [List.map_append, List.map_cons, List.map_nil]
    exact List.Nodup.append h (List.nodup_singleton k)
      (by simpa [List.disjoint_singleton] using hk)

theorem foldl_mapSet_fresh :
    ∀ (l m : List (ℕ × ℕ)),
      (∀ e ∈ l, e.1 ∉ m.map Prod.fst) →
      (l.map Prod.fst).Nodup →
      l.foldl (fun acc e => mapSet acc e.1 e.2) m = m ++ l := by
  intro l
  induction l with
  | nil => intro m _ _; simp
  | cons e t ih =>
    intro m hdisj hnd
    have hhas : mapHas m e.1 = false :=
      (mapHas_false_iff m e.1).mpr (hdisj e (List.mem_cons_self e t))
    have hstep : mapSet m e.1 e.2 = m ++ [e] := by
      rw [mapSet_append_of_not_has m e.1 e.2 hhas]
    simp only [List.foldl_cons, hstep]
    rw [ih (m ++ [e]) ?_ ?_]
    · simp
    · intro f hf
      simp only [List.map_append, List.map_cons, List.map_nil, List.mem_append,
        List.mem_singleton]
      rintro (hfm | hfe)
      · exact hdisj f (List.mem_cons_of_mem e hf) hfm
      · have : e.1 ∉ t.map Prod.fst := by
          simp only [List.map_cons, List.nodup_cons] at hnd
          exact hnd.1
        exact this (hfe ▸ List.mem_map_of_mem Prod.fst hf)
    · simp only [List.map_cons, List.nodup_cons] at hnd
      exact hnd.2

theorem plainOnFix_gate (fieldArea : ℚ) (cells : List GridCell)
    (s : PlainTrack) (fix : GpsFix) (h : 12 < fix.accuracy) :
    plainOnFix fieldArea cells s fix = s := by
  simp [plainOnFix, h]

theorem plainOnFix_miss (fieldArea : ℚ) (cells : List GridCell)
    (s : PlainTrack) (fix : GpsFix) (hacc : fix.accuracy ≤ 12)
    (hfind : cells.find? (fun c => pointInPolygon (fixPoint fix) c.feature) = none) :
    plainOnFix fieldArea cells s fix = s := by
  simp [plainOnFix, not_lt.mpr hacc, hfind]

theorem plainOnFix_hit_revisit (fieldArea : ℚ) (cells : List GridCell)
    (s : PlainTrack) (fix : GpsFix) (c : GridCell) (m : ℕ)
    (hacc : fix.accuracy ≤ 12)
    (hfind : cells.find? (fun d => pointInPolygon (fixPoint fix) d.feature) = some c)
    (hm : mapGet s.cellCounts c.id = some m) :
    plainOnFix fieldArea cells s fix
      = { s with cellCounts := mapSet s.cellCounts c.id (m + 1) } := by
  have hhas : mapHas s.cellCounts c.id = true := by
    rw [mapHas_eq_isSome, hm]; rfl
  simp [plainOnFix, not_lt.mpr hacc, hfind, hhas, hm]

theorem plainOnFix_hit_first (fieldArea : ℚ) (cells : List GridCell)
    (s : PlainTrack) (fix : GpsFix) (c : GridCell)
    (hacc : fix.accuracy ≤ 12)
    (hfind : cells.find? (fun d => pointInPolygon (fixPoint fix) d.feature) = some c)
    (hnone : mapGet s.cellCounts c.id = none) :
    plainOnFix fieldArea cells s fix
      = { cellCounts := mapSet s.cellCounts c.id 1,
          ploughedArea := ((s.cellCounts.length + 1 : ℕ) : ℚ) * cellAreaAcres,
          progress :=
            min ((((s.cellCounts.length + 1 : ℕ) : ℚ) * cellAreaAcres) / fieldArea) 1,
          stored := some
            ⟨((s.cellCounts.length + 1 : ℕ) : ℚ) * cellAreaAcres,
             min ((((s.cellCounts.length + 1 : ℕ) : ℚ) * cellAreaAcres) / fieldArea) 1,
             mapSet s.cellCounts c.id 1⟩ } := by
  have hhas : mapHas s.cellCounts c.id = false := by
    rw [mapHas_eq_isSome, hnone]; rfl
  have hlen : (mapSet s.cellCounts c.id 1).length = s.cellCounts.length + 1 :=
    length_mapSet_of_not_has _ _ _ hhas
  simp [plainOnFix, not_lt.mpr hacc, hfind, hhas, hnone, hlen]

theorem runPlain_nil (fieldArea : ℚ) (cells : List GridCell) (s : PlainTrack) :
    runPlain fieldArea cells s [] = s := rfl

theorem runPlain_cons (fieldArea : ℚ) (cells : List GridCell) (s : PlainTrack)
    (f : GpsFix) (fs : List GpsFix) :
    runPlain fieldArea cells s (f :: fs)
      = runPlain fieldArea cells (plainOnFix fieldArea cells s f) fs := rfl

theorem runPlain_same_cell_visited (fieldArea : ℚ) (cells : List GridCell)
    (c : GridCell) :
    ∀ (fs : List GpsFix) (s : PlainTrack) (m : ℕ),
      (∀ f ∈ fs, f.accuracy ≤ 12) →
      (∀ f ∈ fs, cells.find? (fun d => pointInPolygon (fixPoint f) d.feature) = some c) →
      mapGet s.cellCounts c.id = some m →
      runPlain fieldArea cells s fs
        = { s with cellCounts := mapSet s.cellCounts c.id (m + fs.length) } := by
  intro fs
  induction fs with
  | nil =>
    intro s m _ _ hm
    simp only [runPlain, List.foldl_nil, List.length_nil, Nat.add_zero]
    rw [mapSet_get_self _ _ _ hm]
  | cons f t ih =>
    intro s m hacc hfind hm
    rw [runPlain_cons, plainOnFix_hit_revisit fieldArea cells s f c m
      (hacc f (List.mem_cons_self f t)) (hfind f (List.mem_cons_self f t)) hm]
    rw [ih _ (m + 1) (fun g hg => hacc g (List.mem_cons_of_mem f hg))
      (fun g hg => hfind g (List.mem_cons_of_mem f hg))
      (by simpa using mapGet_mapSet_self s.cellCounts c.id (m + 1))]
    simp only [mapSet_mapSet, List.length_cons]
    have harith : m + 1 + t.length = m + (t.length + 1) := by omega
    rw [harith]

theorem runPlain_same_cell_fresh (fieldArea : ℚ) (cells : List GridCell)
    (c : GridCell) (fs : List GpsFix) (s : PlainTrack)
    (hacc : ∀ f ∈ fs, f.accuracy ≤ 12)
    (hfind : ∀ f ∈ fs, cells.find? (fun d => pointInPolygon (fixPoint f) d.feature) = some c)
    (hnone : mapGet s.cellCounts c.id = none)
    (hne : fs ≠ []) :
    runPlain fieldArea cells s fs
      = { cellCounts := mapSet s.cellCounts c.id fs.length,
          ploughedArea := ((s.cellCounts.length + 1 : ℕ) : ℚ) * cellAreaAcres,
          progress :=
            min ((((s.cellCounts.length + 1 : ℕ) : ℚ) * cellAreaAcres) / fieldArea) 1,
          stored := some
            ⟨((s.cellCounts.length + 1 : ℕ) : ℚ) * cellAreaAcres,
             min ((((s.cellCounts.length + 1 : ℕ) : ℚ) * cellAreaAcres) / fieldArea) 1,
             mapSet s.cellCounts c.id 1⟩ } := by
  cases fs with
  | nil => exact absurd rfl hne
  | cons f t =>
    rw [runPlain_cons, plainOnFix_hit_first fieldArea cells s f c
      (hacc f (List.mem_cons_self f t)) (hfind f (List.mem_cons_self f t)) hnone]
    rw [runPlain_same_cell_visited fieldArea cells c t _ 1
      (fun g hg => hacc g (List.mem_cons_of_mem f hg))
      (fun g hg => hfind g (List.mem_cons_of_mem f hg))
      (by simpa using mapGet_mapSet_self s.cellCounts c.id 1)]
    simp only [mapSet_mapSet, List.length_cons]
    have harith : 1 + t.length = t.length + 1 := by omega
    rw [harith]

theorem find?_min_id :
    ∀ (cells : List GridCell) (p : GridCell → Bool) (c : GridCell),
      List.Pairwise (fun a b => a.id < b.id) cells →
      cells.find? p = some c →
      ∀ d ∈ cells, p d = true → c.id ≤ d.id := by
  intro cells
  induction cells with
  | nil => intro p c _ h; simp at h
  | cons e t ih =>
    intro p c hpw hfind d hd hpd
    rcases List.pairwise_cons.mp hpw with ⟨he, ht⟩
    by_cases hpe : p e = true
    · rw [List.find?_cons_of_pos _ hpe] at hfind
      injection hfind with hec
      subst hec
      rcases List.mem_cons.mp hd with rfl | hd
      · exact le_refl _
      · exact le_of_lt (he d hd)
    · rw [List.find?_cons_of_neg _ (by simpa using hpe)] at hfind
      rcases List.mem_cons.mp hd with rfl | hd
      · exact absurd hpd hpe
      · exact ih p c ht hfind d hd hpd

/-- Demo boundary: the unit square ring. -/
def demoBoundary : Ring := [⟨0, 0⟩, ⟨0, 1⟩, ⟨1, 1⟩, ⟨1, 0⟩]

/-- Demo grid cell: id 0 over the unit square. -/
def demoCell : GridCell := ⟨0, [⟨0, 0⟩, ⟨0, 1⟩, ⟨1, 1⟩, ⟨1, 0⟩]⟩

/-- Demo grid: the single demo cell. -/
def demoCells : List GridCell := [demoCell]

/-- Demo fix: in the middle of the demo cell, accuracy 5 m. -/
def demoFix : GpsFix := ⟨1/2, 1/2, 5, 0, 0⟩

/-- C1: for every accepted fix (accuracy ≤ 12 m) of an active session, the
fix handler increments the visit count of exactly the first matching grid
cell — the cell `find?` returns, which has the least id among the cells
containing the fix when ids increase along the stored list — and updates no
cell when none contains the fix; the covered area grows by the cell area
exactly on a cell's first visit of the session; and over a sequence of
fixes all landing in one cell the visit count increases monotonically (it
is k after k fixes) while the covered area changes exactly once (it equals
one new cell's worth after every nonempty prefix). -/
theorem C1_fix_accounting (fieldArea : ℚ) (cells : List GridCell)
    (s : PlainTrack) (fix : GpsFix)
    (hids : List.Pairwise (fun a b => a.id < b.id) cells)
    (hacc : fix.accuracy ≤ 12) :
    (cells.find? (fun d => pointInPolygon (fixPoint fix) d.feature) = none →
       plainOnFix fieldArea cells s fix = s) ∧
    (∀ c, cells.find? (fun d => pointInPolygon (fixPoint fix) d.feature) = some c →
       (pointInPolygon (fixPoint fix) c.feature = true ∧ c ∈ cells ∧
          ∀ d ∈ cells, pointInPolygon (fixPoint fix) d.feature = true → c.id ≤ d.id) ∧
       mapGet (plainOnFix fieldArea cells s fix).cellCounts c.id
         = some ((mapGet s.cellCounts c.id).getD 0 + 1) ∧
       (∀ k, k ≠ c.id →
          mapGet (plainOnFix fieldArea cells s fix).cellCounts k
            = mapGet s.cellCounts k) ∧
       (mapGet s.cellCounts c.id = none →
          s.ploughedArea = (s.cellCounts.length : ℚ) * cellAreaAcres →
          (plainOnFix fieldArea cells s fix).ploughedArea
            = s.ploughedArea + cellAreaAcres) ∧
       (∀ m, mapGet s.cellCounts c.id = some m →
          (plainOnFix fieldArea cells s fix).ploughedArea = s.ploughedArea)) ∧
    (∀ (fs : List GpsFix) (c : GridCell),
       (∀ f ∈ fs, f.accuracy ≤ 12) →
       (∀ f ∈ fs, cells.find? (fun d => pointInPolygon (fixPoint f) d.feature) = some c) →
       mapGet s.cellCounts c.id = none →
       ∀ k, 0 < k → k ≤ fs.length →
         mapGet (runPlain fieldArea cells s (fs.take k)).cellCounts c.id = some k ∧
         (runPlain fieldArea cells s (fs.take k)).ploughedArea
           = ((s.cellCounts.length + 1 : ℕ) : ℚ) * cellAreaAcres) := by
  refine ⟨?_, ?_, ?_⟩
  · intro hnone
    exact plainOnFix_miss fieldArea cells s fix hacc hnone
  · intro c hfind
    have hpc := List.find?_some hfind
    refine ⟨⟨hpc, List.mem_of_find?_eq_some hfind,
       find?_min_id cells _ c hids hfind⟩, ?_, ?_, ?_, ?_⟩
    · cases hm : mapGet s.cellCounts c.id with
      | none =>
        rw [plainOnFix_hit_first fieldArea cells s fix c hacc hfind hm]
        simp [mapGet_mapSet_self]
      | some m =>
        rw [plainOnFix_hit_revisit fieldArea cells s fix c m hacc hfind hm]
        simp [mapGet_mapSet_self]
    · intro k hk
      cases hm : mapGet s.cellCounts c.id with
      | none =>
        rw [plainOnFix_hit_first fieldArea cells s fix c hacc hfind hm]
        exact mapGet_mapSet_ne s.cellCounts c.id 1 k hk
      | some m =>
        rw [plainOnFix_hit_revisit fieldArea cells s fix c m hacc hfind hm]
        exact mapGet_mapSet_ne s.cellCounts c.id (m + 1) k hk
    · intro hm hinv
      rw [plainOnFix_hit_first fieldArea cells s fix c hacc hfind hm, hinv]
      push_cast
      ring
    · intro m hm
      rw [plainOnFix_hit_revisit fieldArea cells s fix c m hacc hfind hm]
  · intro fs c haccs hfinds hnone k hk hkle
    have htk : (fs.take k).length = k := by
      rw [List.length_take]
      exact Nat.min_eq_left hkle
    have hne : fs.take k ≠ [] := by
      intro h0
      rw [h0] at htk
      simp at htk
      omega
    rw [runPlain_same_cell_fresh fieldArea cells c (fs.take k) s
      (fun f hf => haccs f (List.take_subset k fs hf))
      (fun f hf => hfinds f (List.take_subset k fs hf)) hnone hne]
    constructor
    · simpa [htk] using mapGet_mapSet_self s.cellCounts c.id (fs.take k).length
    · rfl

/-- C1 witness: one accepted fix in the demo cell takes its visit count from
absent to 1. -/
theorem C1_fix_accounting_witness :
    mapGet (plainOnFix 1 demoCells (startPlain none) demoFix).cellCounts 0 = some 1 := by
  have h := C1_fix_accounting 1 demoCells (startPlain none) demoFix
    (by simp [demoCells]) (by norm_num [demoFix])
  have h2 := (h.2.1 demoCell (by
    norm_num [demoCells, List.find?, pointInPolygon, edges, demoCell, demoFix,
      fixPoint])).2.1
  simpa [demoCell, startPlain, mapGet_nil] using h2

theorem trackInv_start (fieldArea : ℚ) :
    TrackInv fieldArea (startPlain none) := by
  refine ⟨by simp [startPlain], ?_, by simp [startPlain], ?_⟩
  · simp [startPlain, zero_div]
  · intro snap h
    simp [startPlain] at h

theorem trackInv_onFix (fieldArea : ℚ) (cells : List GridCell)
    (s : PlainTrack) (fix : GpsFix) (h : TrackInv fieldArea s) :
    TrackInv fieldArea (plainOnFix fieldArea cells s fix) := by
  obtain ⟨harea, hprog, hnd, hsnap⟩ := h
  by_cases hacc : 12 < fix.accuracy
  · rw [plainOnFix_gate _ _ _ _ hacc]
    exact ⟨harea, hprog, hnd, hsnap⟩
  · have hacc' : fix.accuracy ≤ 12 := le_of_not_lt hacc
    cases hfind : cells.find? (fun d => pointInPolygon (fixPoint fix) d.feature) with
    | none =>
      rw [plainOnFix_miss _ _ _ _ hacc' hfind]
      exact ⟨harea, hprog, hnd, hsnap⟩
    | some c =>
      cases hm : mapGet s.cellCounts c.id with
      | none =>
        rw [plainOnFix_hit_first _ _ _ _ _ hacc' hfind hm]
        have hhas : mapHas s.cellCounts c.id = false := by
          rw [mapHas_eq_isSome, hm]; rfl
        have hlen := length_mapSet_of_not_has s.cellCounts c.id 1 hhas
        refine ⟨by simp [hlen], by simp, nodup_keys_mapSet _ _ _ hnd, ?_⟩
        intro snap hs
        simp only at hs
        injection hs with hs
        subst hs
        exact ⟨by simp [hlen], by simp, nodup_keys_mapSet _ _ _ hnd⟩
      | some m =>
        rw [plainOnFix_hit_revisit _ _ _ _ _ _ hacc' hfind hm]
        have hhas : mapHas s.cellCounts c.id = true := by
          rw [mapHas_eq_isSome, hm]; rfl
        have hlen := length_mapSet_of_has s.cellCounts c.id (m + 1) hhas
        have hkeys := keys_mapSet_of_has s.cellCounts c.id (m + 1) hhas
        exact ⟨by simp [hlen, harea], by simpa using hprog,
          by simpa [hkeys] using hnd, hsnap⟩

theorem trackInv_restore (fieldArea : ℚ) (snap : PloughSnapshot)
    (hwf : SnapWF fieldArea snap) :
    TrackInv fieldArea (restoreSession snap (startPlain none)) ∧
    (restoreSession snap (startPlain none)).cellCounts = snap.cells ∧
    (restoreSession snap (startPlain none)).ploughedArea = snap.ploughedArea ∧
    (restoreSession snap (startPlain none)).progress = snap.progress := by
  obtain ⟨harea, hprog, hnd⟩ := hwf
  have hcells : (restoreSession snap (startPlain none)).cellCounts = snap.cells := by
    simp only [restoreSession, startPlain]
    rw [foldl_mapSet_fresh snap.cells [] (by simp) hnd]
    simp
  refine ⟨⟨?_, ?_, ?_, ?_⟩, hcells, rfl, rfl⟩
  · rw [hcells]
    exact harea
  · exact hprog
  · rw [hcells]
    exact hnd
  · intro sn hs
    simp [restoreSession, startPlain] at hs

/-- C2: the coverage invariant `progress = min(covered / fieldArea, 1)` with
`covered = visitedCellCount * cellArea` (cell area constant per grid) holds
at session start, is preserved by every fix, and holds verbatim after a
restore of any snapshot the handler wrote; in particular the progress never
exceeds 1. -/
theorem C2_progress_invariant (fieldArea : ℚ) (cells : List GridCell) :
    TrackInv fieldArea (startPlain none) ∧
    (∀ s fix, TrackInv fieldArea s →
       TrackInv fieldArea (plainOnFix fieldArea cells s fix)) ∧
    (∀ s, TrackInv fieldArea s →
       s.progress = min (s.ploughedArea / fieldArea) 1 ∧
       s.ploughedArea = (s.cellCounts.length : ℚ) * cellAreaAcres ∧
       s.progress ≤ 1) ∧
    (∀ s fix snap, TrackInv fieldArea s →
       (plainOnFix fieldArea cells s fix).stored = some snap →
       TrackInv fieldArea (restoreSession snap (startPlain none)) ∧
       (restoreSession snap (startPlain none)).progress = snap.progress ∧
       (restoreSession snap (startPlain none)).progress ≤ 1) := by
  refine ⟨trackInv_start fieldArea, fun s fix h => trackInv_onFix fieldArea cells s fix h,
    ?_, ?_⟩
  · intro s h
    obtain ⟨harea, hprog, _, _⟩ := h
    exact ⟨hprog, harea, hprog ▸ min_le_right _ 1⟩
  · intro s fix snap h hst
    have h' := trackInv_onFix fieldArea cells s fix h
    have hwf : SnapWF fieldArea snap := h'.2.2.2 snap hst
    obtain ⟨hinv, _, _, hpr⟩ := trackInv_restore fieldArea snap hwf
    refine ⟨hinv, hpr, ?_⟩
    rw [hinv.2.1]
    exact min_le_right _ 1

/-- C2 witness: after one accepted fix from a fresh session the progress is
still bounded by 1, via the invariant. -/
theorem C2_progress_invariant_witness :
    (plainOnFix 1 demoCells (startPlain none) demoFix).progress ≤ 1 := by
  have h := C2_progress_invariant 1 demoCells
  exact (h.2.2.1 _ (h.2.1 (startPlain none) demoFix h.1)).2.2

/-- C3: divergence of the heading gate from the claimed circular-distance
semantics.  With previousHeading 350° and an accurate fix with heading 10°,
the code's plain subtraction computes |10 − 350| = 340 > 30 and captures a
boundary point, while the shorter-arc circular difference is 20°, which is
not above the 30° threshold and so must not trigger a capture. -/
theorem C3_heading_gate_divergence :
    (autoStep ⟨[], some 350⟩ ⟨1, 2, 5, 10, 0⟩).coords = [⟨1, 2⟩] ∧
    (autoStep ⟨[], some 350⟩ ⟨1, 2, 5, 10, 0⟩).prevHeading = some 10 ∧
    circularHeadingDiff 350 10 = 20 ∧
    ¬ 30 < circularHeadingDiff 350 10 := by
  have habs : |(10 : ℚ) - 350| = 340 := by
    rw [abs_of_nonpos (by norm_num)]
    norm_num
  have hcirc : circularHeadingDiff 350 10 = 20 := by
    rw [circularHeadingDiff]
    rw [abs_of_nonneg (by norm_num : (0:ℚ) ≤ 350 - 10)]
    norm_num
  refine ⟨?_, ?_, hcirc, by rw [hcirc]; norm_num⟩
  · rw [autoStep]
    norm_num [habs]
  · rw [autoStep]
    norm_num [habs]

theorem recompute_coords (sqmOf : Ring → ℚ) (st : Draft) :
    (recompute sqmOf st).coords = st.coords := by
  unfold recompute
  split_ifs <;> rfl

theorem recompute_area_congr (sqmOf : Ring → ℚ) (a b : Draft)
    (h : a.coords = b.coords) :
    (recompute sqmOf a).area = (recompute sqmOf b).area := by
  unfold recompute
  rw [h]
  split_ifs <;> simp

theorem draftState_congr (a b : Draft) (h : a.coords = b.coords) :
    draftState a = draftState b := by
  unfold draftState
  rw [h]

/-- C4: `addPoint` appends the point unconditionally (it never rejects), and
any recompute over a ring of fewer than 3 points reports area 0 and a
builder state other than Complete. -/
theorem C4_short_ring (sqmOf : Ring → ℚ) (st : Draft) (p : GeoPoint) :
    (addPoint sqmOf st p).coords = st.coords ++ [p] ∧
    (st.coords.length < 3 →
       (recompute sqmOf st).area = 0 ∧
       draftState (recompute sqmOf st) ≠ BuilderState.Complete) := by
  constructor
  · rw [addPoint, recompute_coords]
  · intro hlt
    have hne : ¬ 3 ≤ st.coords.length := not_le.mpr hlt
    constructor
    · rw [recompute]
      rw [if_neg hne]
    · rw [draftState, recompute_coords]
      by_cases h0 : st.coords.length = 0
      · rw [if_pos h0]
        intro hc
        exact BuilderState.noConfusion hc
      · rw [if_neg h0, if_pos hlt]
        intro hc
        exact BuilderState.noConfusion hc

/-- C4 witness: adding a first point to an empty draft yields exactly that
point, and the one-point ring reports area 0 and is not Complete. -/
theorem C4_short_ring_witness :
    (addPoint (fun _ => (0 : ℚ)) ⟨[], 0, false, false, none⟩ ⟨1, 2⟩).coords
      = [(⟨1, 2⟩ : GeoPoint)] ∧
    (recompute (fun _ => (0 : ℚ)) ⟨[(⟨1, 2⟩ : GeoPoint)], 0, false, false, none⟩).area = 0 := by
  have h1 := C4_short_ring (fun _ => (0 : ℚ)) ⟨[], 0, false, false, none⟩ ⟨1, 2⟩
  have h2 := C4_short_ring (fun _ => (0 : ℚ)) ⟨[(⟨1, 2⟩ : GeoPoint)], 0, false, false, none⟩ ⟨1, 2⟩
  exact ⟨by simpa using h1.1, (h2.2 (by simp)).1⟩

/-- C5: whenever a mutation leaves a ring of at least 3 points that is
self-intersecting, the recompute forces area 0, raises the invalid-shape
alert, leaves the ring exactly as mutated (never repaired) and the stored
snapshot untouched, and classifies the state Invalid; the situation is
recoverable: `undo` after such an `addPoint` restores the previous ring,
and `reset` returns to the Empty state and clears the stored snapshot. -/
theorem C5_kink_invalid (sqmOf : Ring → ℚ) (st : Draft) (p : GeoPoint)
    (hlen : 3 ≤ (st.coords ++ [p]).length)
    (hkink : selfIntersecting (st.coords ++ [p]) = true) :
    (addPoint sqmOf st p).coords = st.coords ++ [p] ∧
    (addPoint sqmOf st p).area = 0 ∧
    (addPoint sqmOf st p).alerted = true ∧
    (addPoint sqmOf st p).stored = st.stored ∧
    draftState (addPoint sqmOf st p) = BuilderState.Invalid ∧
    (undo sqmOf (addPoint sqmOf st p)).coords = st.coords ∧
    draftState (reset sqmOf (addPoint sqmOf st p)) = BuilderState.Empty ∧
    (reset sqmOf (addPoint sqmOf st p)).stored = none ∧
    (∀ st' : Draft, 3 ≤ st'.coords.dropLast.length →
       selfIntersecting st'.coords.dropLast = true →
       (undo sqmOf st').area = 0 ∧ (undo sqmOf st').alerted = true ∧
       draftState (undo sqmOf st') = BuilderState.Invalid) := by
  have hcoords : (addPoint sqmOf st p).coords = st.coords ++ [p] := by
    rw [addPoint, recompute_coords]
  have hbody : addPoint sqmOf st p
      = { (⟨st.coords ++ [p], st.area, st.alerted, st.wrote, st.stored⟩ : Draft) with
          area := 0, alerted := true, wrote := false } := by
    rw [addPoint, recompute]
    simp only [if_pos hlen, if_pos hkink]
  have hstate : draftState (addPoint sqmOf st p) = BuilderState.Invalid := by
    rw [draftState, hcoords, if_neg (by omega : ¬ (st.coords ++ [p]).length = 0),
      if_neg (not_lt.mpr hlen), if_pos hkink]
  refine ⟨hcoords, by rw [hbody], by rw [hbody], by rw [hbody], hstate, ?_, ?_, ?_, ?_⟩
  · rw [undo, recompute_coords]
    simp [hcoords]
  · rw [draftState, reset, recompute_coords]
    rfl
  · rw [reset, recompute]
    rfl
  · intro st' hlen' hkink'
    have hu : undo sqmOf st'
        = { (⟨st'.coords.dropLast, st'.area, st'.alerted, st'.wrote, st'.stored⟩ : Draft) with
            area := 0, alerted := true, wrote := false } := by
      rw [undo, recompute]
      simp only [if_pos hlen', if_pos hkink']
    have hst : draftState (undo sqmOf st') = BuilderState.Invalid := by
      rw [draftState, undo, recompute_coords]
      simp only [if_neg (by omega : ¬ st'.coords.dropLast.length = 0),
        if_neg (not_lt.mpr hlen'), if_pos hkink']
    exact ⟨by rw [hu], by rw [hu], hst⟩

/-- C5 witness: appending (0,1) to the triangle (0,0),(1,1),(1,0) produces
the self-intersecting bowtie: area forced to 0, alert raised, state
Invalid, and undo recovers the triangle. -/
theorem C5_kink_invalid_witness :
    (addPoint (fun _ => (7 : ℚ)) ⟨[⟨0, 0⟩, ⟨1, 1⟩, ⟨1, 0⟩], 0, false, false, none⟩ ⟨0, 1⟩).area = 0 ∧
    (addPoint (fun _ => (7 : ℚ)) ⟨[⟨0, 0⟩, ⟨1, 1⟩, ⟨1, 0⟩], 0, false, false, none⟩ ⟨0, 1⟩).alerted = true ∧
    draftState (addPoint (fun _ => (7 : ℚ)) ⟨[⟨0, 0⟩, ⟨1, 1⟩, ⟨1, 0⟩], 0, false, false, none⟩ ⟨0, 1⟩)
      = BuilderState.Invalid ∧
    (undo (fun _ => (7 : ℚ))
        (addPoint (fun _ => (7 : ℚ)) ⟨[⟨0, 0⟩, ⟨1, 1⟩, ⟨1, 0⟩], 0, false, false, none⟩ ⟨0, 1⟩)).coords
      = [⟨0, 0⟩, ⟨1, 1⟩, ⟨1, 0⟩] := by
  have hkink : selfIntersecting
      (([⟨0, 0⟩, ⟨1, 1⟩, ⟨1, 0⟩] : Ring) ++ [(⟨0, 1⟩ : GeoPoint)]) = true := by
    norm_num [selfIntersecting, edges, segmentsIntersect, orient, onSegment,
      List.range, List.range.loop]
  have h := C5_kink_invalid (fun _ => (7 : ℚ))
    ⟨[⟨0, 0⟩, ⟨1, 1⟩, ⟨1, 0⟩], 0, false, false, none⟩ ⟨0, 1⟩ (by simp) hkink
  exact ⟨h.2.1, h.2.2.1, h.2.2.2.2.1, h.2.2.2.2.2.1⟩

/-- C7 counterexample: the tracker's cell-area conversion uses the constant
4046.86, which is not the claimed sole constant 4046.8564224. -/
theorem C7_mixed_constants_counterexample :
    cellAreaAcres = (ploughWidth / 2) ^ 2 / cellAcreConstant ∧
    cellAcreConstant ≠ boundaryAcreConstant := by
  constructor
  · rfl
  · norm_num [cellAcreConstant, boundaryAcreConstant]

/-- C7 (amended): the boundary-area recompute divides by 4046.8564224, but
the per-cell area of the trackers and the square-meter display value use
the rounded constant 4046.86. -/
theorem C7_conversion_constants (sqmOf : Ring → ℚ) (st : Draft)
    (hlen : 3 ≤ st.coords.length) (hok : selfIntersecting st.coords = false) :
    (recompute sqmOf st).area = sqmOf st.coords / boundaryAcreConstant ∧
    cellAreaAcres = (ploughWidth / 2) ^ 2 / cellAcreConstant ∧
    (∀ a, displaySquareMeters a = a * displayAcreConstant) ∧
    boundaryAcreConstant = 4046.8564224 ∧
    displayAcreConstant = 4046.86 ∧
    cellAcreConstant = 4046.86 := by
  refine ⟨?_, rfl, fun a => rfl, rfl, rfl, rfl⟩
  rw [recompute, if_pos hlen, if_neg (by rw [hok]; exact Bool.false_ne_true)]
  simp [boundaryAcreConstant]

/-- C7 witness: a valid square ring whose geodesic area is exactly one
acre's worth of square meters reports area 1 acre. -/
theorem C7_conversion_constants_witness :
    (recompute (fun _ => (4046.8564224 : ℚ))
      ⟨[⟨0, 0⟩, ⟨0, 1⟩, ⟨1, 1⟩, ⟨1, 0⟩], 0, false, false, none⟩).area = 1 := by
  have hok : selfIntersecting ([⟨0, 0⟩, ⟨0, 1⟩, ⟨1, 1⟩, ⟨1, 0⟩] : Ring) = false := by
    norm_num [selfIntersecting, edges, segmentsIntersect, orient, onSegment,
      List.range, List.range.loop]
  have h := C7_conversion_constants (fun _ => (4046.8564224 : ℚ))
    ⟨[⟨0, 0⟩, ⟨0, 1⟩, ⟨1, 1⟩, ⟨1, 0⟩], 0, false, false, none⟩ (by simp) hok
  rw [h.1]
  norm_num [boundaryAcreConstant]

theorem recompute_wrote_stored (sqmOf : Ring → ℚ) (st : Draft) :
    (recompute sqmOf st).wrote
      = (decide (3 ≤ st.coords.length) && !selfIntersecting st.coords) ∧
    (recompute sqmOf st).stored
      = if 3 ≤ st.coords.length ∧ selfIntersecting st.coords = false
        then some (st.coords, sqmOf st.coords / 4046.8564224)
        else st.stored := by
  unfold recompute
  by_cases h1 : 3 ≤ st.coords.length
  · cases hb : selfIntersecting st.coords <;> simp [h1, hb]
  · simp [h1]

/-- C8 counterexample: adding a first point to an empty draft is a boundary
mutation, but writes no draft snapshot (the source writes the snapshot only
inside the ≥-3-points, no-kinks branch of the recompute effect). -/
theorem C8_no_write_counterexample :
    (addPoint (fun _ => (0 : ℚ)) ⟨[], 0, false, false, none⟩ ⟨0, 0⟩).wrote = false ∧
    (addPoint (fun _ => (0 : ℚ)) ⟨[], 0, false, false, none⟩ ⟨0, 0⟩).stored = none := by
  constructor <;> rfl

/-- C8 (amended): `addPoint` and `undo` write the draft snapshot (ring plus
acre area) exactly when the resulting ring has at least 3 points and is not
self-intersecting; otherwise they leave the stored snapshot untouched;
`reset` never writes and clears the stored snapshot. -/
theorem C8_snapshot_writes (sqmOf : Ring → ℚ) (st : Draft) (p : GeoPoint) :
    ((addPoint sqmOf st p).wrote
       = (decide (3 ≤ (st.coords ++ [p]).length)
           && !selfIntersecting (st.coords ++ [p]))) ∧
    ((addPoint sqmOf st p).stored
       = if 3 ≤ (st.coords ++ [p]).length ∧
            selfIntersecting (st.coords ++ [p]) = false
         then some (st.coords ++ [p], sqmOf (st.coords ++ [p]) / 4046.8564224)
         else st.stored) ∧
    ((undo sqmOf st).wrote
       = (decide (3 ≤ st.coords.dropLast.length)
           && !selfIntersecting st.coords.dropLast)) ∧
    ((undo sqmOf st).stored
       = if 3 ≤ st.coords.dropLast.length ∧
            selfIntersecting st.coords.dropLast = false
         then some (st.coords.dropLast, sqmOf st.coords.dropLast / 4046.8564224)
         else st.stored) ∧
    (reset sqmOf st).wrote = false ∧
    (reset sqmOf st).stored = none := by
  refine ⟨?_, ?_, ?_, ?_, ?_, ?_⟩
  · exact (recompute_wrote_stored sqmOf _).1
  · exact (recompute_wrote_stored sqmOf _).2
  · exact (recompute_wrote_stored sqmOf _).1
  · exact (recompute_wrote_stored sqmOf _).2
  · exact (recompute_wrote_stored sqmOf _).1
  · unfold reset
    rw [(recompute_wrote_stored sqmOf _).2]
    simp

/-- C9: `undo` recomputes exactly as `addPoint` does (both are the recompute
effect over the mutated ring), and `undo` followed by `addPoint` of the
removed point restores the ring contents, area and state bit-for-bit. -/
theorem C9_undo_addPoint_roundtrip (sqmOf : Ring → ℚ) (st : Draft) (p : GeoPoint) :
    (addPoint sqmOf (undo sqmOf (addPoint sqmOf st p)) p).coords
      = (addPoint sqmOf st p).coords ∧
    (addPoint sqmOf (undo sqmOf (addPoint sqmOf st p)) p).area
      = (addPoint sqmOf st p).area ∧
    draftState (addPoint sqmOf (undo sqmOf (addPoint sqmOf st p)) p)
      = draftState (addPoint sqmOf st p) ∧
    undo sqmOf (addPoint sqmOf st p)
      = recompute sqmOf
          { addPoint sqmOf st p with
            coords := (addPoint sqmOf st p).coords.dropLast } := by
  have h1 : (addPoint sqmOf st p).coords = st.coords ++ [p] := by
    rw [addPoint, recompute_coords]
  have h2 : (undo sqmOf (addPoint sqmOf st p)).coords = st.coords := by
    rw [undo, recompute_coords]
    simp [h1]
  have h3 : (addPoint sqmOf (undo sqmOf (addPoint sqmOf st p)) p).coords
      = st.coords ++ [p] := by
    rw [addPoint, recompute_coords]
    simp [h2]
  refine ⟨by rw [h3, h1], ?_, ?_, rfl⟩
  · have harea := recompute_area_congr sqmOf
      { undo sqmOf (addPoint sqmOf st p) with
        coords := (undo sqmOf (addPoint sqmOf st p)).coords ++ [p] }
      { st with coords := st.coords ++ [p] }
      (by simp [h2])
    exact harea
  · exact draftState_congr _ _ (by rw [h3, h1])

theorem mem_squareGrid (b : BBox) (s : ℚ) (r : Ring) (h : r ∈ squareGrid b s) :
    ∃ i j : ℕ, i < (⌈(b.maxLon - b.minLon) / s⌉).toNat ∧
      j < (⌈(b.maxLat - b.minLat) / s⌉).toNat ∧
      r = cellRing (b.minLon + i * s) (b.minLat + j * s) s := by
  simp only [squareGrid] at h
  rcases List.mem_flatMap.mp h with ⟨i, hi, hr⟩
  rcases List.mem_map.mp hr with ⟨j, hj, hcell⟩
  exact ⟨i, j, List.mem_range.mp hi, List.mem_range.mp hj, hcell.symm⟩

theorem buildGrid_features (boundary : Ring) :
    (buildGrid boundary).map GridCell.feature
      = (squareGrid (boundingBox boundary) (ploughWidth / 2)).filter
          (fun f => ringsIntersect f boundary) := by
  unfold buildGrid
  simp only [List.map_map]
  exact List.enum_map_snd _

theorem buildGrid_ids (boundary : Ring) :
    (buildGrid boundary).map GridCell.id
      = List.range (buildGrid boundary).length := by
  unfold buildGrid
  rw [List.map_map, List.length_map, List.enum_length]
  exact List.enum_map_fst _

theorem buildGrid_mem (boundary : Ring) (c : GridCell)
    (h : c ∈ buildGrid boundary) :
    ringsIntersect c.feature boundary = true ∧
    c.feature ∈ squareGrid (boundingBox boundary) (ploughWidth / 2) := by
  unfold buildGrid at h
  simp only [List.mem_map] at h
  obtain ⟨pair, hp, hc⟩ := h
  have hsnd : pair.2 ∈ ((squareGrid (boundingBox boundary) (ploughWidth / 2)).filter
      (fun f => ringsIntersect f boundary)) := by
    have : pair.2 ∈ ((squareGrid (boundingBox boundary) (ploughWidth / 2)).filter
        (fun f => ringsIntersect f boundary)).enum.map Prod.snd :=
      List.mem_map_of_mem Prod.snd hp
    rwa [List.enum_map_snd] at this
  have hfeat : c.feature = pair.2 := by
    rw [← hc]
  rcases List.mem_filter.mp hsnd with ⟨hmem, hpred⟩
  exact ⟨by rw [hfeat]; exact hpred, by rw [hfeat]; exact hmem⟩

/-- C6: the grid build takes the bounding box of the boundary, tessellates
it with `squareGrid` at cell side `ploughWidth / 2` from the box's minimum
corner, retains exactly the cells intersecting the boundary ring (every
retained cell is one of the tessellation cells of the bounding box, with
bounded column/row indices, so no cell outside the box's tessellation is
ever retained), assigns 0-based ids in tessellation order, and the per-cell
area used for coverage is `(ploughWidth/2)²` square meters (stored as
acres via the 4046.86 constant). -/
theorem C6_grid_build (boundary : Ring) :
    (buildGrid boundary).map GridCell.feature
      = (squareGrid (boundingBox boundary) (ploughWidth / 2)).filter
          (fun f => ringsIntersect f boundary) ∧
    (buildGrid boundary).map GridCell.id
      = List.range (buildGrid boundary).length ∧
    (∀ c ∈ buildGrid boundary, ringsIntersect c.feature boundary = true) ∧
    (∀ c ∈ buildGrid boundary, ∃ i j : ℕ,
       i < (⌈((boundingBox boundary).maxLon - (boundingBox boundary).minLon)
             / (ploughWidth / 2)⌉).toNat ∧
       j < (⌈((boundingBox boundary).maxLat - (boundingBox boundary).minLat)
             / (ploughWidth / 2)⌉).toNat ∧
       c.feature = cellRing
         ((boundingBox boundary).minLon + i * (ploughWidth / 2))
         ((boundingBox boundary).minLat + j * (ploughWidth / 2))
         (ploughWidth / 2)) ∧
    cellAreaAcres * cellAcreConstant = (ploughWidth / 2) ^ 2 := by
  refine ⟨buildGrid_features boundary, buildGrid_ids boundary, ?_, ?_, ?_⟩
  · intro c hc
    exact (buildGrid_mem boundary c hc).1
  · intro c hc
    exact mem_squareGrid _ _ _ (buildGrid_mem boundary c hc).2
  · rw [cellAreaAcres, cellAcreConstant]
    rw [div_mul_cancel₀]
    norm_num

/-- C6 witness: over the demo boundary the build retains the single
intersecting tessellation cell, which intersects the boundary, and the
per-cell area identity evaluates. -/
theorem C6_grid_build_witness :
    ringsIntersect demoCell.feature demoBoundary = true ∧
    cellAreaAcres * cellAcreConstant = (ploughWidth / 2) ^ 2 := by
  have hbb : boundingBox demoBoundary = ⟨0, 0, 1, 1⟩ := by
    norm_num [boundingBox, demoBoundary]
  have hsq : squareGrid ⟨0, 0, 1, 1⟩ (ploughWidth / 2) = [cellRing 0 0 1] := by
    norm_num [squareGrid, ploughWidth, List.range, List.range.loop, cellRing]
  have hint : ringsIntersect (cellRing 0 0 1) demoBoundary = true := by
    norm_num [ringsIntersect, pointInPolygon, edges, demoBoundary, cellRing,
      segmentsIntersect, orient, onSegment]
  have hgrid : buildGrid demoBoundary = [demoCell] := by
    unfold buildGrid
    rw [hbb]
    simp only [hsq, List.filter, hint]
    norm_num [List.enum, List.enumFrom, demoCell, cellRing]
  have h := C6_grid_build demoBoundary
  have hmem : demoCell ∈ buildGrid demoBoundary := by
    rw [hgrid]
    exact List.mem_singleton.mpr rfl
  exact ⟨h.2.2.1 demoCell hmem, h.2.2.2.2⟩

theorem step_equiv (fieldArea : ℚ) (cells : List GridCell) (now : ℚ)
    (s : EnhTrack) (p : PlainTrack) (h : enhView s = plainView p)
    (fix : GpsFix) :
    enhView (enhOnFix fieldArea cells now s fix)
      = plainView (plainOnFix fieldArea cells p fix) := by
  obtain ⟨hc, har, hpr⟩ :
      s.cellCounts = p.cellCounts ∧ s.ploughedArea = p.ploughedArea ∧
        s.progress = p.progress := by
    simpa [enhView, plainView, Prod.ext_iff] using h
  by_cases hacc : 12 < fix.accuracy
  · simp [enhOnFix, plainOnFix, hacc, enhView, plainView, hc, har, hpr]
  · cases hfind : cells.find? (fun d => pointInPolygon (fixPoint fix) d.feature) with
    | none =>
      cases hl : s.lastLocation <;>
        simp [enhOnFix, plainOnFix, hacc, hfind, hl, enhView, plainView, hc, har, hpr]
    | some c =>
      cases hl : s.lastLocation <;>
        by_cases hhas : mapHas p.cellCounts c.id <;>
          simp [enhOnFix, plainOnFix, hacc, hfind, hl, enhView, plainView,
            hc, har, hpr, hhas]

theorem run_equiv (fieldArea : ℚ) (cells : List GridCell) :
    ∀ (evs : List (ℚ × GpsFix)) (s : EnhTrack) (p : PlainTrack),
      enhView s = plainView p →
      enhView (runEnh fieldArea cells s evs)
        = plainView (runPlain fieldArea cells p (evs.map Prod.snd)) := by
  intro evs
  induction evs with
  | nil => intro s p h; exact h
  | cons e t ih =>
    intro s p h
    exact ih _ _ (step_equiv fieldArea cells e.1 s p h e.2)

/-- C10: the two PloughingScreen variants are coverage-equivalent: they
build identical grids from the same boundary, and over the same sequence of
location callbacks (the enhanced variant also consumes a wall-clock time
per callback) they produce identical cell counts, ploughed area and
progress; the enhanced state differs only in its extra speed, last-location
and session-time bookkeeping, which the coverage view ignores. -/
theorem C10_variant_equivalence (fieldArea : ℚ) (boundary : Ring)
    (evs : List (ℚ × GpsFix)) (t0 : ℚ) (sp0 : Option ℚ) (ll0 : Option Coords)
    (st0 : Option EnhSnapshot) (st0' : Option PloughSnapshot) :
    buildGrid boundary = buildGridPlain boundary ∧
    enhView (runEnh fieldArea (buildGrid boundary) (startEnh t0 sp0 ll0 st0) evs)
      = plainView (runPlain fieldArea (buildGridPlain boundary)
          (startPlain st0') (evs.map Prod.snd)) := by
  constructor
  · rfl
  · have hstart : enhView (startEnh t0 sp0 ll0 st0) = plainView (startPlain st0') := by
      simp [enhView, plainView, startEnh, startPlain]
    have hgrids : buildGrid boundary = buildGridPlain boundary := rfl
    rw [← hgrids]
    exact run_equiv fieldArea (buildGrid boundary) evs _ _ hstart

end PloughingApp
